import Mathlib

/-!
Verification of the ProxASAGA wrapper (`prox_asaga.py`).

The repository is a thin Python surface around a native routine
(`cffi_prox_asaga` in `libasaga.so`, not part of the repository): the Python
side builds the reweighting vector `d` (`_compute_D`), allocates the iterate
and the trace buffers, calls the native routine, maps the logistic loss
(`_logistic_loss`) over the iterate trace and returns the final iterate with
the two trimmed traces (`minimize_SAGA`).

Modelling conventions:
- the sparse CSR design matrix is viewed densely, row by row; the CSR is
  assumed canonical, i.e. its stored entries are exactly its nonzero entries,
  so `tmp.data[:] = 1.` followed by `tmp.sum(0)` counts the nonzero entries
  of each column;
- float64 scalars are idealised as exact arithmetic: input data (matrix and
  labels) as rationals, computed quantities (iterates, losses) as reals;
- the native routine is opaque; claims about the Python wrapper alone are
  stated for an arbitrary engine of the right shape (`Engine`), while claims
  about the optimisation loop itself use an engine modelled from the spec
  (`specEngine`).
-/

namespace ProxAsaga

/-- Dense-by-rows view of the sparse CSR design matrix, assumed canonical
(stored entries = nonzero entries).  `rows` are the samples; every row has
length `nFeatures`. -/
structure SpMat where
  nFeatures : ℕ
  rows : List (List ℚ)
  hrect : ∀ r ∈ rows, r.length = nFeatures

/-- Number of samples: `A.shape[0]`. -/
def nSamples (M : SpMat) : ℕ := M.rows.length

/-- Dense view of `tmp` after `tmp.data[:] = 1.`: every nonzero entry
becomes `1`, absent (zero) entries stay `0`. -/
def onesData (M : SpMat) : List (List ℚ) :=
  M.rows.map (fun r => r.map (fun v => if v = 0 then 0 else 1))

/-- Column sums `tmp.sum(0)`: fold the rows together with pointwise
addition, starting from the zero vector. -/
def colSumAux (nF : ℕ) (rows : List (List ℚ)) : List ℚ :=
  rows.foldl (fun acc r => List.zipWith (· + ·) acc r) (List.replicate nF 0)

/-- The reweighting estimator `_compute_D` (source lines 16-25): replace the
stored data by ones, sum the columns, and map each column sum `c` to
`n_samples / c` when `c ≠ 0` and to `0` otherwise. -/
def _compute_D (M : SpMat) : List ℚ :=
  (colSumAux M.nFeatures (onesData M)).map
    (fun c => if c = 0 then 0 else (nSamples M : ℚ) / c)

/-- Specification-side count: the number of samples whose entry in column
`j` is nonzero. -/
def colCount (M : SpMat) (j : ℕ) : ℕ :=
  M.rows.countP (fun r => decide (r.getD j 0 ≠ 0))

lemma getD_zipWith_add :
    ∀ (a b : List ℚ) (j : ℕ), j < a.length → j < b.length →
      (List.zipWith (· + ·) a b).getD j 0 = a.getD j 0 + b.getD j 0 := by
  intro a
  induction a with
  | nil => intro b j h1 _; exact absurd h1 (by simp)
  | cons x xs ih =>
    intro b j h1 h2
    cases b with
    | nil => exact absurd h2 (by simp)
    | cons y ys =>
      cases j with
      | zero => simp
      | succ n =>
        simpa using ih ys n (by simpa using h1) (by simpa using h2)

lemma foldl_zipWith_length (rows : List (List ℚ)) :
    ∀ acc : List ℚ, (∀ r ∈ rows, r.length = acc.length) →
      (rows.foldl (fun a r => List.zipWith (· + ·) a r) acc).length = acc.length := by
  induction rows with
  | nil => intro acc _; rfl
  | cons r rest ih =>
    intro acc h
    have hr : r.length = acc.length := h r (by simp)
    have hz : (List.zipWith (· + ·) acc r).length = acc.length := by
      simp [List.length_zipWith, hr]
    have := ih (List.zipWith (· + ·) acc r)
      (by intro r' hr'; rw [hz]; exact h r' (by simp [hr']))
    simpa [hz] using this

lemma foldl_zipWith_getD (rows : List (List ℚ)) :
    ∀ acc : List ℚ, (∀ r ∈ rows, r.length = acc.length) → ∀ j, j < acc.length →
      (rows.foldl (fun a r => List.zipWith (· + ·) a r) acc).getD j 0 =
        acc.getD j 0 + (rows.map (fun r => r.getD j 0)).sum := by
  induction rows with
  | nil => intro acc _ j _; simp
  | cons r rest ih =>
    intro acc h j hj
    have hr : r.length = acc.length := h r (by simp)
    have hz : (List.zipWith (· + ·) acc r).length = acc.length := by
      simp [List.length_zipWith, hr]
    have step := ih (List.zipWith (· + ·) acc r)
      (by intro r' hr'; rw [hz]; exact h r' (by simp [hr'])) j (by rw [hz]; exact hj)
    have hget : (List.zipWith (· + ·) acc r).getD j 0 = acc.getD j 0 + r.getD j 0 :=
      getD_zipWith_add acc r j hj (hr ▸ hj)
    simp only [List.foldl_cons, List.map_cons, List.sum_cons]
    rw [step, hget]
    ring

lemma onesData_length (M : SpMat) :
    ∀ r ∈ onesData M, r.length = M.nFeatures := by
  intro r hr
  simp only [onesData, List.mem_map] at hr
  obtain ⟨r₀, hr₀, rfl⟩ := hr
  simpa using M.hrect r₀ hr₀

lemma sum_indicator_eq_count (rows : List (List ℚ)) (j : ℕ) :
    (rows.map (fun r => if r.getD j 0 = 0 then (0 : ℚ) else 1)).sum =
      (rows.countP (fun r => decide (r.getD j 0 ≠ 0)) : ℚ) := by
  induction rows with
  | nil => simp
  | cons r rest ih =>
    simp only [List.map_cons, List.sum_cons, List.countP_cons, ih, ne_eq,
      decide_eq_true_eq]
    by_cases h : r.getD j 0 = 0
    · rw [if_pos h, if_neg (fun hc => hc h)]
      push_cast
      ring
    · rw [if_neg h, if_pos h]
      push_cast
      ring

lemma colSumAux_getD (M : SpMat) (j : ℕ) (hj : j < M.nFeatures) :
    (colSumAux M.nFeatures (onesData M)).getD j 0 = (colCount M j : ℚ) := by
  have hrect : ∀ r ∈ onesData M, r.length = (List.replicate M.nFeatures (0 : ℚ)).length := by
    intro r hr; simpa using onesData_length M r hr
  have hfold := foldl_zipWith_getD (onesData M) (List.replicate M.nFeatures 0) hrect j
    (by simpa using hj)
  have hzero : (List.replicate M.nFeatures (0 : ℚ)).getD j 0 = 0 := by
    rw [List.getD_eq_getElem _ _ (by simpa using hj)]
    simp
  have hmap : (onesData M).map (fun r => r.getD j 0) =
      M.rows.map (fun r => if r.getD j 0 = 0 then (0 : ℚ) else 1) := by
    simp only [onesData, List.map_map]
    refine List.map_congr_left ?_
    intro r hr
    have hlen : j < r.length := by rw [M.hrect r hr]; exact hj
    simp only [Function.comp]
    rw [List.getD_eq_getElem _ _ (by simpa using hlen), List.getElem_map,
      List.getD_eq_getElem _ _ hlen]
  rw [colSumAux, hfold, hzero, hmap, sum_indicator_eq_count]
  simp [colCount]

lemma colSumAux_length (M : SpMat) :
    (colSumAux M.nFeatures (onesData M)).length = M.nFeatures := by
  have := foldl_zipWith_length (onesData M) (List.replicate M.nFeatures 0)
    (by intro r hr; simpa using onesData_length M r hr)
  simpa [colSumAux] using this

lemma compute_D_length (M : SpMat) : (_compute_D M).length = M.nFeatures := by
  simp [_compute_D, colSumAux_length]

lemma compute_D_getD (M : SpMat) (j : ℕ) (hj : j < M.nFeatures) :
    (_compute_D M).getD j 0 =
      if colCount M j = 0 then 0 else (nSamples M : ℚ) / (colCount M j : ℚ) := by
  have hlen : j < (colSumAux M.nFeatures (onesData M)).length := by
    rw [colSumAux_length]; exact hj
  have : (_compute_D M).getD j 0 =
      (fun c => if c = 0 then 0 else (nSamples M : ℚ) / c)
        ((colSumAux M.nFeatures (onesData M)).getD j 0) := by
    rw [_compute_D, List.getD_eq_getElem _ _ (by simpa [compute_D_length] using hlen),
      List.getElem_map, List.getD_eq_getElem _ _ hlen]
  rw [this, colSumAux_getD M j hj]
  by_cases h : colCount M j = 0 <;> simp [h]

/-- Column `j` of the design matrix is identically zero. -/
def colZero (M : SpMat) (j : ℕ) : Prop := ∀ r ∈ M.rows, r.getD j 0 = 0

instance (M : SpMat) (j : ℕ) : Decidable (colZero M j) :=
  inferInstanceAs (Decidable (∀ r ∈ M.rows, r.getD j 0 = 0))

lemma colCount_eq_zero_iff (M : SpMat) (j : ℕ) :
    colCount M j = 0 ↔ colZero M j := by
  simp only [colCount, colZero, List.countP_eq_zero]
  constructor
  · intro h r hr
    have := h r hr
    simpa using this
  · intro h r hr
    simpa using h r hr

lemma colCount_le_nSamples (M : SpMat) (j : ℕ) : colCount M j ≤ nSamples M :=
  List.countP_le_length _

/-- Concrete 2x2 design matrix used to instantiate hypotheses:
rows `[1, 0]` and `[2, 3]`. -/
def exampleMat : SpMat := ⟨2, [[1, 0], [2, 3]], by decide⟩

/-- Claim C1: `_compute_D` returns a vector of length `n_features` whose
`j`-th entry is `n_samples / c_j` when the nonzero count `c_j` of column `j`
is positive, and `0` when `c_j = 0`. -/
theorem compute_D_correct (M : SpMat) :
    (_compute_D M).length = M.nFeatures ∧
    ∀ j : ℕ, j < M.nFeatures →
      (_compute_D M).getD j 0 =
        if 0 < colCount M j then (nSamples M : ℚ) / (colCount M j : ℚ) else 0 := by
  refine ⟨compute_D_length M, fun j hj => ?_⟩
  rw [compute_D_getD M j hj]
  rcases Nat.eq_zero_or_pos (colCount M j) with h | h
  · simp [h]
  · rw [if_neg (Nat.pos_iff_ne_zero.mp h), if_pos h]

/-- Witness for C1 at the concrete matrix `exampleMat`. -/
theorem compute_D_correct_witness :
    (0 < exampleMat.nFeatures ∧
      (_compute_D exampleMat).getD 0 0 =
        if 0 < colCount exampleMat 0 then
          (nSamples exampleMat : ℚ) / (colCount exampleMat 0 : ℚ) else 0) ∧
    colCount exampleMat 0 = 2 ∧ nSamples exampleMat = 2 :=
  ⟨⟨by decide, (compute_D_correct exampleMat).2 0 (by decide)⟩, by decide, by decide⟩

/-- Claim C6: `d_j = 0` iff column `j` is all-zero; otherwise `d_j > 0` and
`d_j ≥ 1`, because the column count never exceeds `n_samples`. -/
theorem compute_D_zero_iff (M : SpMat) (j : ℕ) (hj : j < M.nFeatures) :
    ((_compute_D M).getD j 0 = 0 ↔ colZero M j) ∧
    (¬ colZero M j →
      0 < (_compute_D M).getD j 0 ∧ 1 ≤ (_compute_D M).getD j 0) := by
  rw [compute_D_getD M j hj]
  rcases Nat.eq_zero_or_pos (colCount M j) with h | h
  · have hz : colZero M j := (colCount_eq_zero_iff M j).mp h
    refine ⟨by simp [h, hz], fun hc => absurd hz hc⟩
  · have hne : colCount M j ≠ 0 := Nat.pos_iff_ne_zero.mp h
    have hcpos : (0 : ℚ) < (colCount M j : ℚ) := by exact_mod_cast h
    have hcle : (colCount M j : ℚ) ≤ (nSamples M : ℚ) := by
      exact_mod_cast colCount_le_nSamples M j
    have hone : 1 ≤ (nSamples M : ℚ) / (colCount M j : ℚ) :=
      (one_le_div hcpos).mpr hcle
    have hpos : 0 < (nSamples M : ℚ) / (colCount M j : ℚ) :=
      lt_of_lt_of_le one_pos hone
    rw [if_neg hne]
    refine ⟨?_, fun _ => ⟨hpos, hone⟩⟩
    constructor
    · intro h0
      exact absurd h0 (ne_of_gt hpos)
    · intro hz
      exact absurd ((colCount_eq_zero_iff M j).mpr hz) hne

/-- Witness for C6 at column 1 of `exampleMat`, which is not all-zero. -/
theorem compute_D_zero_iff_witness :
    (1 < exampleMat.nFeatures ∧ ¬ colZero exampleMat 1) ∧
    (0 < (_compute_D exampleMat).getD 1 0 ∧ 1 ≤ (_compute_D exampleMat).getD 1 0) :=
  ⟨⟨by decide, by decide⟩, (compute_D_zero_iff exampleMat 1 (by decide)).2 (by decide)⟩

/-! The loss evaluator `_logistic_loss` (source lines 28-37). -/

/-- Per-sample logistic loss at margin `t = b_i * z_i`, exactly as the two
masked branches of `_logistic_loss` compute it: `log(1 + exp(-t))` when
`t > 0`, and `-t + log(1 + exp(t))` otherwise. -/
noncomputable def logisticPointLoss (t : ℝ) : ℝ :=
  if 0 < t then Real.log (1 + Real.exp (-t)) else -t + Real.log (1 + Real.exp t)

/-- The argument handed to `exp` in the branch `_logistic_loss` selects at
margin `t`: `-t` on the `yz > 0` branch, `t` on the other branch. -/
noncomputable def branchExpArg (t : ℝ) : ℝ := if 0 < t then -t else t

/-- Dot product of a (rational) matrix row with a real vector: `A.dot(x)`
restricted to one row. -/
def dotRow (r : List ℚ) (x : List ℝ) : ℝ :=
  (List.zipWith (fun a xi => (a : ℝ) * xi) r x).sum

/-- `z = A.dot(x)`. -/
def matVec (M : SpMat) (x : List ℝ) : List ℝ :=
  M.rows.map (fun r => dotRow r x)

/-- The loss evaluator `_logistic_loss`: mean of the per-sample branch
values over `yz = b * (A.dot x)`, plus `0.5 * alpha * x.dot(x)` plus
`beta * sum |x_j|`. -/
noncomputable def _logistic_loss (M : SpMat) (b : List ℚ) (alpha beta : ℝ)
    (x : List ℝ) : ℝ :=
  ((List.zipWith (fun (bi : ℚ) (zi : ℝ) => (bi : ℝ) * zi) b (matVec M x)).map
      logisticPointLoss).sum
      / ((List.zipWith (fun (bi : ℚ) (zi : ℝ) => (bi : ℝ) * zi) b
          (matVec M x)).length : ℝ)
    + (1 / 2) * alpha * (List.zipWith (fun v w => v * w) x x).sum
    + beta * (x.map (fun v => |v|)).sum

/-- Written from the spec's words: the mean over samples of
`log(1 + exp(-b_i * (A x)_i))`, plus the L2 term `0.5 * alpha * (x . x)` and
the L1 term `beta * sum_j |x_j|`. -/
noncomputable def specLogisticLoss (M : SpMat) (b : List ℚ) (alpha beta : ℝ)
    (x : List ℝ) : ℝ :=
  (List.zipWith
      (fun (bi : ℚ) (zi : ℝ) => Real.log (1 + Real.exp (-((bi : ℝ) * zi))))
      b (matVec M x)).sum / (nSamples M : ℝ)
    + (1 / 2) * alpha * (List.zipWith (fun v w => v * w) x x).sum
    + beta * (x.map (fun v => |v|)).sum

lemma one_add_exp_pos (t : ℝ) : (0 : ℝ) < 1 + Real.exp t := by
  have := Real.exp_pos t
  linarith

lemma logisticPointLoss_eq (t : ℝ) :
    logisticPointLoss t = Real.log (1 + Real.exp (-t)) := by
  unfold logisticPointLoss
  by_cases h : 0 < t
  · rw [if_pos h]
  · rw [if_neg h]
    have hmul : (1 : ℝ) + Real.exp (-t) = Real.exp (-t) * (1 + Real.exp t) := by
      rw [mul_add, mul_one, ← Real.exp_add]
      simp [add_comm]
    rw [hmul, Real.log_mul (Real.exp_ne_zero _) (ne_of_gt (one_add_exp_pos t)),
      Real.log_exp]

/-- Claim C5: `_logistic_loss` is pure and returns exactly the mean over
samples of `log(1 + exp(-b_i (A x)_i))` plus `0.5 alpha (x . x)` plus
`beta * sum_j |x_j|`; in particular its two branches on the sign of
`b_i (A x)_i` compute the same mathematical value. -/
theorem logistic_loss_spec (M : SpMat) (b : List ℚ) (alpha beta : ℝ)
    (x : List ℝ) (hb : b.length = nSamples M) :
    (∀ t : ℝ, logisticPointLoss t = Real.log (1 + Real.exp (-t))) ∧
    _logistic_loss M b alpha beta x = specLogisticLoss M b alpha beta x := by
  refine ⟨logisticPointLoss_eq, ?_⟩
  have hlen : (List.zipWith (fun (bi : ℚ) (zi : ℝ) => (bi : ℝ) * zi)
      b (matVec M x)).length = nSamples M := by
    simp [List.length_zipWith, matVec, nSamples, hb]
  unfold _logistic_loss specLogisticLoss
  rw [List.map_zipWith, hlen]
  simp only [logisticPointLoss_eq]

/-- Witness for C5 at `exampleMat`, labels `[1, -1]`, iterate `[0, 0]`. -/
theorem logistic_loss_spec_witness :
    ([(1 : ℚ), -1].length = nSamples exampleMat) ∧
    ((∀ t : ℝ, logisticPointLoss t = Real.log (1 + Real.exp (-t))) ∧
     _logistic_loss exampleMat [1, -1] 1 1 [0, 0] =
       specLogisticLoss exampleMat [1, -1] 1 1 [0, 0]) :=
  ⟨by decide, logistic_loss_spec exampleMat [1, -1] 1 1 [0, 0] (by decide)⟩

/-- Claim C8: the loss evaluator's branches only ever exponentiate a
non-positive argument, and the per-sample loss is bounded (non-negative and
at most `|t| + log 2`), so no overflow can occur for finite inputs. -/
theorem logistic_loss_no_overflow (t : ℝ) :
    branchExpArg t ≤ 0 ∧
    logisticPointLoss t =
      (if 0 < t then Real.log (1 + Real.exp (branchExpArg t))
       else -t + Real.log (1 + Real.exp (branchExpArg t))) ∧
    0 ≤ logisticPointLoss t ∧
    logisticPointLoss t ≤ |t| + Real.log 2 := by
  by_cases h : 0 < t
  · have hle : Real.exp (-t) ≤ 1 := Real.exp_le_one_iff.mpr (by linarith)
    have hlog0 : 0 ≤ Real.log (1 + Real.exp (-t)) :=
      Real.log_nonneg (by have := Real.exp_pos (-t); linarith)
    have hlog2 : Real.log (1 + Real.exp (-t)) ≤ Real.log 2 :=
      Real.log_le_log (one_add_exp_pos _) (by linarith)
    have habs : 0 ≤ |t| := abs_nonneg t
    exact ⟨by simp only [branchExpArg, if_pos h]; linarith,
      by simp only [branchExpArg, logisticPointLoss, if_pos h],
      by simp only [logisticPointLoss, if_pos h]; exact hlog0,
      by simp only [logisticPointLoss, if_pos h]; linarith⟩
  · have ht : t ≤ 0 := le_of_not_lt h
    have hle : Real.exp t ≤ 1 := Real.exp_le_one_iff.mpr ht
    have hlog0 : 0 ≤ Real.log (1 + Real.exp t) :=
      Real.log_nonneg (by have := Real.exp_pos t; linarith)
    have hlog2 : Real.log (1 + Real.exp t) ≤ Real.log 2 :=
      Real.log_le_log (one_add_exp_pos _) (by linarith)
    have habs : |t| = -t := abs_of_nonpos ht
    exact ⟨by simp only [branchExpArg, if_neg h]; exact ht,
      by simp only [branchExpArg, logisticPointLoss, if_neg h],
      by simp only [logisticPointLoss, if_neg h]; linarith,
      by simp only [logisticPointLoss, if_neg h]; rw [habs]; linarith⟩

/-! The solve entry point `minimize_SAGA` (source lines 39-62).

The hot loop lives in the native routine `cffi_prox_asaga`, which is not in
the repository.  The Python wrapper allocates the iterate `x` (zeros of
length `n_features`) and the trace buffers (`max_iter + 1` rows), lets the
native routine overwrite them in place, maps `_logistic_loss` over the
iterate trace, and returns `x`, `trace_time[:-2]`, `func_trace[:-2]`.
Since the native routine can only overwrite the buffers, any engine yields
a final iterate of length `n_features` and traces of length `max_iter + 1`;
`EngineResult` records exactly those shape facts, and the wrapper is stated
for an arbitrary such engine. -/

/-- Buffers as they stand after the native call: the engine has overwritten
(in place) the iterate, the iterate trace and the time trace allocated by
the wrapper, so their lengths are fixed by the allocation. -/
structure EngineResult (nF maxIter : ℕ) where
  x : List ℝ
  traceX : List (List ℝ)
  traceTime : List ℝ
  hx : x.length = nF
  htX : traceX.length = maxIter + 1
  htT : traceTime.length = maxIter + 1

/-- An arbitrary native engine: given the problem data, the reweighting
vector and the hyperparameters, it fills the preallocated buffers. -/
structure Engine where
  run : (M : SpMat) → (b : List ℚ) → (d : List ℚ) → (alpha : ℝ) → (beta : ℝ) →
    (stepSize : ℝ) → (maxIter : ℕ) → (nJobs : ℕ) → EngineResult M.nFeatures maxIter

/-- The solve entry point `minimize_SAGA`: compute `d` with `_compute_D`,
run the engine on the preallocated buffers, map `_logistic_loss` over the
iterate trace, and return the final iterate together with
`trace_time[:-2]` and `func_trace[:-2]`. -/
noncomputable def minimize_SAGA (E : Engine) (M : SpMat) (b : List ℚ)
    (alpha beta stepSize : ℝ) (maxIter nJobs : ℕ) :
    List ℝ × List ℝ × List ℝ :=
  let r := E.run M b (_compute_D M) alpha beta stepSize maxIter nJobs
  let funcTrace := r.traceX.map (fun xi => _logistic_loss M b alpha beta xi)
  (r.x, r.traceTime.dropLast.dropLast, funcTrace.dropLast.dropLast)

/-- The engine that leaves every preallocated buffer untouched: the iterate
stays the zero vector and both traces stay zero-filled. -/
def zeroEngine : Engine where
  run M _ _ _ _ _ maxIter _ :=
    { x := List.replicate M.nFeatures 0
      traceX := List.replicate (maxIter + 1) (List.replicate M.nFeatures 0)
      traceTime := List.replicate (maxIter + 1) 0
      hx := List.length_replicate _ _
      htX := List.length_replicate _ _
      htT := List.length_replicate _ _ }

lemma map_dropLast {α β : Type} (f : α → β) :
    ∀ l : List α, (l.map f).dropLast = l.dropLast.map f := by
  intro l
  induction l with
  | nil => rfl
  | cons a rest ih =>
    cases rest with
    | nil => rfl
    | cons b rest' => simp [List.dropLast_cons₂, ih]

lemma minimize_SAGA_eq (E : Engine) (M : SpMat) (b : List ℚ)
    (alpha beta stepSize : ℝ) (maxIter nJobs : ℕ) :
    minimize_SAGA E M b alpha beta stepSize maxIter nJobs =
      ((E.run M b (_compute_D M) alpha beta stepSize maxIter nJobs).x,
       (E.run M b (_compute_D M) alpha beta stepSize maxIter
         nJobs).traceTime.dropLast.dropLast,
       ((E.run M b (_compute_D M) alpha beta stepSize maxIter
         nJobs).traceX.dropLast.dropLast).map
         (fun xi => _logistic_loss M b alpha beta xi)) := by
  unfold minimize_SAGA
  simp only []
  rw [map_dropLast, map_dropLast]

/-- Concrete 1x1 design matrix with the single entry `1`. -/
def exampleMat1 : SpMat := ⟨1, [[1]], by decide⟩

/-- Claim C4: for `max_iter ≥ 3` both returned traces have length exactly
`max_iter - 1`: the last two entries of the `(max_iter + 1)`-length buffers
are always dropped. -/
theorem trace_trim_length (E : Engine) (M : SpMat) (b : List ℚ)
    (alpha beta stepSize : ℝ) (nJobs : ℕ) (maxIter : ℕ) (h : 3 ≤ maxIter) :
    (minimize_SAGA E M b alpha beta stepSize maxIter nJobs).2.1.length =
      maxIter - 1 ∧
    (minimize_SAGA E M b alpha beta stepSize maxIter nJobs).2.2.length =
      maxIter - 1 := by
  have ht := (E.run M b (_compute_D M) alpha beta stepSize maxIter nJobs).htT
  have hX := (E.run M b (_compute_D M) alpha beta stepSize maxIter nJobs).htX
  rw [minimize_SAGA_eq]
  refine ⟨?_, ?_⟩ <;>
    simp only [List.length_map, List.length_dropLast, ht, hX] <;> omega

/-- Witness for C4 at `max_iter = 3` with the untouched-buffer engine. -/
theorem trace_trim_length_witness :
    3 ≤ 3 ∧
    ((minimize_SAGA zeroEngine exampleMat [1, -1] 1 1 1 3 1).2.1.length =
       3 - 1 ∧
     (minimize_SAGA zeroEngine exampleMat [1, -1] 1 1 1 3 1).2.2.length =
       3 - 1) :=
  ⟨by decide, trace_trim_length zeroEngine exampleMat [1, -1] 1 1 1 1 3 (by decide)⟩

/-- Claim C10: for every `max_iter ≥ 1` the returned trace length is
`max_iter - 1` (so `0` at `max_iter = 1` and `1` at `max_iter = 2`), the
time trace and the loss trace always have equal length, and trimming never
fails. -/
theorem trace_trim_boundary (E : Engine) (M : SpMat) (b : List ℚ)
    (alpha beta stepSize : ℝ) (nJobs : ℕ) (maxIter : ℕ) (h : 1 ≤ maxIter) :
    (minimize_SAGA E M b alpha beta stepSize maxIter nJobs).2.1.length =
      maxIter - 1 ∧
    (minimize_SAGA E M b alpha beta stepSize maxIter nJobs).2.1.length =
      (minimize_SAGA E M b alpha beta stepSize maxIter nJobs).2.2.length := by
  have ht := (E.run M b (_compute_D M) alpha beta stepSize maxIter nJobs).htT
  have hX := (E.run M b (_compute_D M) alpha beta stepSize maxIter nJobs).htX
  rw [minimize_SAGA_eq]
  constructor
  · simp only [List.length_dropLast, ht]
    omega
  · simp only [List.length_map, List.length_dropLast, ht, hX]

/-- Witness for C10 at the boundary `max_iter = 1`: the returned traces are
empty. -/
theorem trace_trim_boundary_witness :
    1 ≤ 1 ∧
    ((minimize_SAGA zeroEngine exampleMat [1, -1] 1 1 1 1 1).2.1.length =
       1 - 1 ∧
     (minimize_SAGA zeroEngine exampleMat [1, -1] 1 1 1 1 1).2.1.length =
       (minimize_SAGA zeroEngine exampleMat [1, -1] 1 1 1 1 1).2.2.length) :=
  ⟨by decide,
    trace_trim_boundary zeroEngine exampleMat [1, -1] 1 1 1 1 1 (by decide)⟩

/-- Claim C3 (amended): `minimize_SAGA` performs no hyperparameter
validation at all: even when `alpha ≤ 0`, `step_size ≤ 0`, `max_iter < 1`
or `n_threads < 1`, no error is raised and a complete result (final iterate
of length `n_features` and both trimmed traces) is returned. -/
theorem no_hyperparameter_validation (E : Engine) (M : SpMat) (b : List ℚ)
    (alpha beta stepSize : ℝ) (maxIter nJobs : ℕ)
    (_hinvalid : alpha ≤ 0 ∨ stepSize ≤ 0 ∨ maxIter = 0 ∨ nJobs = 0) :
    (minimize_SAGA E M b alpha beta stepSize maxIter nJobs).1.length =
      M.nFeatures ∧
    (minimize_SAGA E M b alpha beta stepSize maxIter nJobs).2.1.length =
      maxIter - 1 ∧
    (minimize_SAGA E M b alpha beta stepSize maxIter nJobs).2.2.length =
      maxIter - 1 := by
  have hx := (E.run M b (_compute_D M) alpha beta stepSize maxIter nJobs).hx
  have ht := (E.run M b (_compute_D M) alpha beta stepSize maxIter nJobs).htT
  have hX := (E.run M b (_compute_D M) alpha beta stepSize maxIter nJobs).htX
  rw [minimize_SAGA_eq]
  refine ⟨?_, ?_, ?_⟩ <;>
    simp only [List.length_map, List.length_dropLast, hx, ht, hX] <;> omega

/-- Witness for the amended C3: `n_threads = 0` is invalid, yet a full
result comes back. -/
theorem no_hyperparameter_validation_witness :
    ((1 : ℝ) ≤ 0 ∨ (1 : ℝ) ≤ 0 ∨ 3 = 0 ∨ 0 = 0) ∧
    ((minimize_SAGA zeroEngine exampleMat [1, -1] 1 1 1 3 0).1.length =
       exampleMat.nFeatures ∧
     (minimize_SAGA zeroEngine exampleMat [1, -1] 1 1 1 3 0).2.1.length =
       3 - 1 ∧
     (minimize_SAGA zeroEngine exampleMat [1, -1] 1 1 1 3 0).2.2.length =
       3 - 1) :=
  ⟨Or.inr (Or.inr (Or.inr rfl)),
    no_hyperparameter_validation zeroEngine exampleMat [1, -1] 1 1 1 3 0
      (Or.inr (Or.inr (Or.inr rfl)))⟩

/-- Counterexample to C3 as stated: with the invalid hyperparameter
`alpha = -1 ≤ 0` nothing is detected and nothing aborts; `minimize_SAGA`
returns a complete triple, here the zero iterate `[0, 0]` and a trimmed
time trace of length 2. -/
theorem no_validation_counterexample :
    (minimize_SAGA zeroEngine exampleMat [1, -1] (-1) 0 1 3 1).1 = [0, 0] ∧
    (minimize_SAGA zeroEngine exampleMat [1, -1] (-1) 0 1 3 1).2.1.length
      = 2 :=
  ⟨rfl, rfl⟩

/-- Claim C2 (amended): `minimize_SAGA` returns the final iterate, the
trimmed time trace, and the trimmed trace of LOSS VALUES obtained by
applying `_logistic_loss` to each iterate snapshot INSIDE the solver; the
iterate snapshots themselves are not returned. -/
theorem returns_loss_trace (E : Engine) (M : SpMat) (b : List ℚ)
    (alpha beta stepSize : ℝ) (maxIter nJobs : ℕ) :
    (minimize_SAGA E M b alpha beta stepSize maxIter nJobs).2.2 =
      ((E.run M b (_compute_D M) alpha beta stepSize maxIter
        nJobs).traceX.dropLast.dropLast).map
        (fun xi => _logistic_loss M b alpha beta xi) ∧
    (minimize_SAGA E M b alpha beta stepSize maxIter nJobs).1 =
      (E.run M b (_compute_D M) alpha beta stepSize maxIter nJobs).x ∧
    (minimize_SAGA E M b alpha beta stepSize maxIter nJobs).2.1 =
      (E.run M b (_compute_D M) alpha beta stepSize maxIter
        nJobs).traceTime.dropLast.dropLast := by
  rw [minimize_SAGA_eq]
  exact ⟨rfl, rfl, rfl⟩

/-- Counterexample to C2 as stated: on a concrete run the third returned
component is `[Real.log 2]` — a list of loss scalars computed by applying
`_logistic_loss` inside `minimize_SAGA` — not a list of parameter vectors
left for the caller to evaluate. -/
theorem loss_applied_inside_counterexample :
    (minimize_SAGA zeroEngine exampleMat1 [1] 1 1 1 2 1).2.2 =
      [Real.log 2] := by
  rw [minimize_SAGA_eq]
  show List.map (fun xi => _logistic_loss exampleMat1 [1] 1 1 xi)
      ((zeroEngine.run exampleMat1 [1] (_compute_D exampleMat1) 1 1 1 2
        1).traceX.dropLast.dropLast) = [Real.log 2]
  show List.map (fun xi => _logistic_loss exampleMat1 [1] 1 1 xi) [[0]] =
    [Real.log 2]
  unfold _logistic_loss matVec dotRow exampleMat1
  simp [logisticPointLoss, Real.exp_zero]
  norm_num

/-! The native optimisation loop, modelled from the spec.

Modelled from the spec: the routine `cffi_prox_asaga` of `libasaga.so` is
declared and called by the wrapper but its code is not in the repository.
The model below follows §4.2-§4.4 and §5 of the spec: `n_threads` workers
each own a private sampling stream and a private share of the
`max_iter * n_samples` total steps; an explicit interleaving `sched` says
which worker performs each global step (the spec's racy shared-memory reads
are modelled as sequentially consistent interleavings); the iterate is
snapshotted once per epoch; wall-clock time is not modelled and the time
trace records the epoch index. -/

/-- Row `i` of the design matrix (empty when out of range). -/
def rowOf (M : SpMat) (i : ℕ) : List ℚ := M.rows.getD i []

/-- The matrix entry `A[i, j]`. -/
def entry (M : SpMat) (i j : ℕ) : ℚ := (rowOf M i).getD j 0

/-- Dot product of a row with the shared iterate. -/
noncomputable def dotRowF (r : List ℚ) (x : ℕ → ℝ) : ℝ :=
  ((List.range r.length).map (fun j => (r.getD j 0 : ℝ) * x j)).sum

/-- Modelled from the spec (§4.2 step 3): the per-sample gradient scalar,
the derivative of `log(1 + exp(-b z))` with respect to `z`. -/
noncomputable def gradScalar (bi : ℚ) (z : ℝ) : ℝ :=
  -(bi : ℝ) / (1 + Real.exp ((bi : ℝ) * z))

/-- Modelled from the spec (§4.3): the proximal operator, an L2 shrink
followed by the L1 soft-threshold. -/
noncomputable def proxOp (alpha beta s v : ℝ) : ℝ :=
  Real.sign (v / (1 + s * alpha)) * max (|v / (1 + s * alpha)| - s * beta) 0

/-- Shared mutable state of the modelled loop: the iterate, the per-sample
gradient memory, the running average gradient, and each worker's private
step count. -/
structure AsagaState where
  x : ℕ → ℝ
  mem : ℕ → ℝ
  gavg : ℕ → ℝ
  counts : ℕ → ℕ

/-- Solve-start state: iterate, gradient memory and running average are
zero-initialised. -/
def initState : AsagaState :=
  ⟨fun _ => 0, fun _ => 0, fun _ => 0, fun _ => 0⟩

/-- Modelled from the spec (§4.2): one step of worker `w`: draw the next
sample index from the worker's private stream, compute the new gradient
scalar, and for every nonzero coordinate of the sampled row apply the
SAGA direction scaled by the step size followed by the proximal operator;
update the running average on the same coordinates and overwrite the
gradient memory of the sample. -/
noncomputable def asagaStep (M : SpMat) (b d : List ℚ) (alpha beta s : ℝ)
    (seq : ℕ → ℕ → ℕ) (w : ℕ) (st : AsagaState) : AsagaState :=
  let i := seq w (st.counts w) % nSamples M
  let gNew := gradScalar (b.getD i 0) (dotRowF (rowOf M i) st.x)
  let gOld := st.mem i
  { x := fun j => if entry M i j ≠ 0 then
        proxOp alpha beta s
          (st.x j - s * ((gNew - gOld) * (entry M i j : ℝ)
            + (d.getD j 0 : ℝ) * st.gavg j))
      else st.x j
    mem := fun k => if k = i then gNew else st.mem k
    gavg := fun j => if entry M i j ≠ 0 then
        st.gavg j + (gNew - gOld) / (nSamples M : ℝ) * (entry M i j : ℝ)
      else st.gavg j
    counts := fun v => if v = w then st.counts v + 1 else st.counts v }

/-- Modelled from the spec (§5): run `t` global steps; at global step `u`
the worker `sched u % nJobs` executes its next private step. -/
noncomputable def asagaRun (M : SpMat) (b d : List ℚ) (alpha beta s : ℝ)
    (seq : ℕ → ℕ → ℕ) (sched : ℕ → ℕ) (nJobs : ℕ) : ℕ → AsagaState
  | 0 => initState
  | t + 1 => asagaStep M b d alpha beta s seq (sched t % nJobs)
      (asagaRun M b d alpha beta s seq sched nJobs t)

/-- Modelled from the spec: the missing native routine `cffi_prox_asaga`
as an `Engine`: it executes `max_iter * n_samples` total steps and fills
trace slot `k` with the iterate after `k` epochs (`n_samples` steps each);
the time trace records the epoch index. -/
noncomputable def specEngine (seq : ℕ → ℕ → ℕ) (sched : ℕ → ℕ) : Engine where
  run M b d alpha beta s maxIter nJobs :=
    { x := (List.range M.nFeatures).map
        (asagaRun M b d alpha beta s seq sched nJobs (maxIter * nSamples M)).x
      traceX := (List.range (maxIter + 1)).map (fun k =>
        (List.range M.nFeatures).map
          (asagaRun M b d alpha beta s seq sched nJobs (k * nSamples M)).x)
      traceTime := (List.range (maxIter + 1)).map (Nat.cast : ℕ → ℝ)
      hx := by rw [List.length_map, List.length_range]
      htX := by rw [List.length_map, List.length_range]
      htT := by rw [List.length_map, List.length_range] }

lemma entry_eq_zero_of_colZero (M : SpMat) (j : ℕ) (hz : colZero M j)
    (i : ℕ) : entry M i j = 0 := by
  unfold entry rowOf
  by_cases hi : i < M.rows.length
  · rw [List.getD_eq_getElem _ _ hi]
    exact hz _ (List.getElem_mem hi)
  · rw [List.getD_eq_default _ _ (le_of_not_lt hi)]
    rfl

lemma asagaStep_x_frozen (M : SpMat) (b d : List ℚ) (alpha beta s : ℝ)
    (seq : ℕ → ℕ → ℕ) (w : ℕ) (st : AsagaState) (j : ℕ)
    (hz : colZero M j) :
    (asagaStep M b d alpha beta s seq w st).x j = st.x j := by
  unfold asagaStep
  simp only []
  rw [if_neg]
  intro hne
  exact hne (entry_eq_zero_of_colZero M j hz _)

lemma asagaRun_x_frozen (M : SpMat) (b d : List ℚ) (alpha beta s : ℝ)
    (seq : ℕ → ℕ → ℕ) (sched : ℕ → ℕ) (nJobs : ℕ) (j : ℕ)
    (hz : colZero M j) :
    ∀ t, (asagaRun M b d alpha beta s seq sched nJobs t).x j = 0 := by
  intro t
  induction t with
  | zero => rfl
  | succ t ih =>
    show (asagaStep M b d alpha beta s seq (sched t % nJobs)
      (asagaRun M b d alpha beta s seq sched nJobs t)).x j = 0
    rw [asagaStep_x_frozen M b d alpha beta s seq _ _ j hz, ih]

lemma rangeMap_getD (nF : ℕ) (f : ℕ → ℝ) (j : ℕ) (hj : j < nF) :
    ((List.range nF).map f).getD j 0 = f j := by
  rw [List.getD_eq_getElem _ _ (by simpa using hj), List.getElem_map,
    List.getElem_range]

lemma colZero_of_compute_D_eq_zero (M : SpMat) (j : ℕ)
    (hj : j < M.nFeatures) (hd : (_compute_D M).getD j 0 = 0) :
    colZero M j := by
  rw [compute_D_getD M j hj] at hd
  by_cases h : colCount M j = 0
  · exact (colCount_eq_zero_iff M j).mp h
  · exfalso
    rw [if_neg h] at hd
    have hcpos : (0 : ℚ) < (colCount M j : ℚ) := by
      exact_mod_cast Nat.pos_of_ne_zero h
    have hcle : (colCount M j : ℚ) ≤ (nSamples M : ℚ) := by
      exact_mod_cast colCount_le_nSamples M j
    have hpos : (0 : ℚ) < (nSamples M : ℚ) / (colCount M j : ℚ) :=
      div_pos (lt_of_lt_of_le hcpos hcle) hcpos
    exact absurd hd (ne_of_gt hpos)

/-- Concrete 1x2 design matrix whose column 1 is touched by no sample. -/
def exampleMatDeg : SpMat := ⟨2, [[1, 0]], by decide⟩

/-- Claim C7: the returned iterate has length `n_features`, the iterate is
zero-initialised at solve start (trace slot 0 is the zero vector), and a
coordinate whose reweighting factor is 0 (degenerate column) stays exactly
0 in every trace snapshot and in the final iterate. -/
theorem degenerate_coordinate_frozen (seq : ℕ → ℕ → ℕ) (sched : ℕ → ℕ)
    (M : SpMat) (b : List ℚ) (alpha beta stepSize : ℝ) (maxIter nJobs : ℕ)
    (j : ℕ) (hj : j < M.nFeatures)
    (hd : (_compute_D M).getD j 0 = 0) :
    (minimize_SAGA (specEngine seq sched) M b alpha beta stepSize maxIter
      nJobs).1.length = M.nFeatures ∧
    (minimize_SAGA (specEngine seq sched) M b alpha beta stepSize maxIter
      nJobs).1.getD j 0 = 0 ∧
    ((specEngine seq sched).run M b (_compute_D M) alpha beta stepSize
      maxIter nJobs).traceX.getD 0 [] = List.replicate M.nFeatures 0 ∧
    ∀ xi ∈ ((specEngine seq sched).run M b (_compute_D M) alpha beta
      stepSize maxIter nJobs).traceX, xi.getD j 0 = 0 := by
  have hz : colZero M j := colZero_of_compute_D_eq_zero M j hj hd
  have hfrozen := asagaRun_x_frozen M b (_compute_D M) alpha beta stepSize
    seq sched nJobs j hz
  rw [minimize_SAGA_eq]
  refine ⟨?_, ?_, ?_, ?_⟩
  · show ((List.range M.nFeatures).map _).length = M.nFeatures
    rw [List.length_map, List.length_range]
  · show ((List.range M.nFeatures).map _).getD j 0 = 0
    rw [rangeMap_getD M.nFeatures _ j hj]
    exact hfrozen _
  · show ((List.range (maxIter + 1)).map _).getD 0 [] = _
    have h0 : 0 < maxIter + 1 := Nat.succ_pos _
    rw [List.getD_eq_getElem _ _ (by simp), List.getElem_map,
      List.getElem_range]
    show (List.range M.nFeatures).map
      (asagaRun M b (_compute_D M) alpha beta stepSize seq sched nJobs
        (0 * nSamples M)).x = List.replicate M.nFeatures 0
    rw [Nat.zero_mul]
    show (List.range M.nFeatures).map initState.x = _
    rw [show initState.x = fun _ => (0 : ℝ) from rfl, List.map_const',
      List.length_range]
  · intro xi hxi
    simp only [specEngine, List.mem_map] at hxi
    obtain ⟨k, _, rfl⟩ := hxi
    rw [rangeMap_getD M.nFeatures _ j hj]
    exact hfrozen _

/-- Witness for C7 at `exampleMatDeg`, whose column 1 has reweighting
factor 0. -/
theorem degenerate_coordinate_frozen_witness :
    (1 < exampleMatDeg.nFeatures ∧
     (_compute_D exampleMatDeg).getD 1 0 = 0) ∧
    ((minimize_SAGA (specEngine (fun _ _ => 0) (fun _ => 0)) exampleMatDeg
       [1] 1 1 1 2 1).1.length = exampleMatDeg.nFeatures ∧
     (minimize_SAGA (specEngine (fun _ _ => 0) (fun _ => 0)) exampleMatDeg
       [1] 1 1 1 2 1).1.getD 1 0 = 0 ∧
     ((specEngine (fun _ _ => 0) (fun _ => 0)).run exampleMatDeg [1]
       (_compute_D exampleMatDeg) 1 1 1 2 1).traceX.getD 0 [] =
       List.replicate exampleMatDeg.nFeatures 0 ∧
     ∀ xi ∈ ((specEngine (fun _ _ => 0) (fun _ => 0)).run exampleMatDeg [1]
       (_compute_D exampleMatDeg) 1 1 1 2 1).traceX, xi.getD 1 0 = 0) :=
  ⟨⟨by decide, by
      rw [compute_D_getD exampleMatDeg 1 (by decide)]
      simp [show colCount exampleMatDeg 1 = 0 from by decide]⟩,
    degenerate_coordinate_frozen (fun _ _ => 0) (fun _ => 0) exampleMatDeg
      [1] 1 1 1 2 1 1 (by decide) (by
        rw [compute_D_getD exampleMatDeg 1 (by decide)]
        simp [show colCount exampleMatDeg 1 = 0 from by decide])⟩

/-- Claim C9: with a single worker (`n_threads = 1`) the solve is
deterministic: for the same private sampling streams, any two interleaving
schedules produce identical final iterates, time traces and loss traces. -/
theorem single_thread_deterministic (seq : ℕ → ℕ → ℕ)
    (sched₁ sched₂ : ℕ → ℕ) (M : SpMat) (b : List ℚ)
    (alpha beta stepSize : ℝ) (maxIter : ℕ) :
    minimize_SAGA (specEngine seq sched₁) M b alpha beta stepSize maxIter 1 =
    minimize_SAGA (specEngine seq sched₂) M b alpha beta stepSize maxIter 1
    := by
  have hrun : ∀ t,
      asagaRun M b (_compute_D M) alpha beta stepSize seq sched₁ 1 t =
      asagaRun M b (_compute_D M) alpha beta stepSize seq sched₂ 1 t := by
    intro t
    induction t with
    | zero => rfl
    | succ t ih =>
      show asagaStep M b (_compute_D M) alpha beta stepSize seq
          (sched₁ t % 1) _ =
        asagaStep M b (_compute_D M) alpha beta stepSize seq
          (sched₂ t % 1) _
      rw [Nat.mod_one, Nat.mod_one, ih]
  rw [minimize_SAGA_eq, minimize_SAGA_eq]
  simp only [specEngine, hrun]

end ProxAsaga
